import Mathlib

/-!
Verification of the wav-tools frequency planner, quantizer, analyzer and
matcher, shallowly embedded from the C sources (wav-lib.c, wav-lib.h,
wav-analyzer.c, wav-generator.c).  Unsigned 32-bit arithmetic is modelled
on naturals with explicit reduction modulo 2 ^ 32; the int return codes are
modelled on integers.  Floating-point doubles are modelled on rationals,
with the transcendental and transform primitives of the numeric library
taken as parameters.
-/

/-- Modulus of the 32-bit unsigned arithmetic used throughout the sources. -/
def U32 : ℕ := 2 ^ 32

/-- Unsigned 32-bit subtraction, for operands below the modulus. -/
def sub32 (a b : ℕ) : ℕ := (a + U32 - b) % U32

/-- Conversion of an unsigned 32-bit value to a signed int, as gcc does it
(two-complement wrap). -/
def toInt32 (n : ℕ) : ℤ :=
  if n % U32 < 2 ^ 31 then ((n % U32 : ℕ) : ℤ) else ((n % U32 : ℕ) : ℤ) - (U32 : ℕ)

/-- MIN_FREQ from wav-lib.h, in Hz. -/
def MIN_FREQ : ℕ := 200

/-- MAX_FREQS_PER_CHAN from wav-analyzer.c. -/
def MAX_FREQS_PER_CHAN : ℕ := 64

/-- FREQ_ACCURACY from wav-analyzer.c, in Hz. -/
def FREQ_ACCURACY : ℕ := 1

/-- POWER_NOISE_LEVEL from wav-analyzer.c (an arbitrary-unit double). -/
def POWER_NOISE_LEVEL : ℚ := 5

/-- struct audio from wav-lib.h. -/
structure AudioParams where
  channels : ℕ
  sample_rate : ℕ
  bits_per_sample : ℕ
  duration_s : ℕ
  freqs_per_chan : ℕ
  samples_per_chan : ℕ
deriving DecidableEq

/-! ## Frequency planner (fill_desired_freqs, wav-lib.c lines 18-38)

The per-channel frequency arrays are modelled as a function from channel
index and tone index to the stored value; a write is a pointwise update. -/

/-- delta_f of fill_desired_freqs: unsigned ((sample_rate / 2) - MIN_FREQ)
divided by freqs_per_chan. -/
def delta_f (wav : AudioParams) : ℕ :=
  sub32 (wav.sample_rate / 2) MIN_FREQ / wav.freqs_per_chan

/-- delta_c of fill_desired_freqs: delta_f / (channels + 1). -/
def delta_c (wav : AudioParams) : ℕ := delta_f wav / (wav.channels + 1)

/-- A single write freqs[c][i] = v into the matrix of frequencies. -/
def store2 (m : ℕ → ℕ → ℕ) (c i v : ℕ) : ℕ → ℕ → ℕ :=
  fun c2 i2 => if c2 = c ∧ i2 = i then v else m c2 i2

/-- The inner loop of fill_desired_freqs: for i below the given bound,
freqs[c][i] = (MIN_FREQ + i * delta_f) + c * delta_c, in unsigned
arithmetic. -/
def fillRow (m : ℕ → ℕ → ℕ) (c df dc : ℕ) : ℕ → (ℕ → ℕ → ℕ)
  | 0 => m
  | i + 1 => store2 (fillRow m c df dc i) c i ((MIN_FREQ + i * df + c * dc) % U32)

/-- The outer loop of fill_desired_freqs: the inner loop for each channel
below the given bound. -/
def fillChans (m : ℕ → ℕ → ℕ) (df dc n : ℕ) : ℕ → (ℕ → ℕ → ℕ)
  | 0 => m
  | c + 1 => fillRow (fillChans m df dc n c) c df dc n

/-- fill_desired_freqs from wav-lib.c: computes the two spacings, fails
with -1 when either is zero, otherwise fills the matrix and returns 0. -/
def fill_desired_freqs (freqs : ℕ → ℕ → ℕ) (wav : AudioParams) : ℤ × (ℕ → ℕ → ℕ) :=
  let df := delta_f wav
  let dc := delta_c wav
  if df = 0 ∨ dc = 0 then (-1, freqs)
  else (0, fillChans freqs df dc wav.freqs_per_chan wav.channels)

theorem fillRow_apply (m : ℕ → ℕ → ℕ) (c df dc n c2 i2 : ℕ) :
    fillRow m c df dc n c2 i2 =
      if c2 = c ∧ i2 < n then (MIN_FREQ + i2 * df + c * dc) % U32 else m c2 i2 := by
  induction n with
  | zero => simp [fillRow]
  | succ k ih =>
    simp only [fillRow, store2]
    by_cases h1 : c2 = c ∧ i2 = k
    · rw [if_pos h1, if_pos ⟨h1.1, by omega⟩, h1.2]
    · rw [if_neg h1, ih]
      by_cases h2 : c2 = c ∧ i2 < k
      · rw [if_pos h2, if_pos ⟨h2.1, by omega⟩]
      · rw [if_neg h2, if_neg (by
          intro h3
          rcases h3 with ⟨h3c, h3i⟩
          subst h3c
          simp only [true_and, not_lt] at h1 h2
          omega)]

theorem fillChans_apply (m : ℕ → ℕ → ℕ) (df dc n nc c2 i2 : ℕ) :
    fillChans m df dc n nc c2 i2 =
      if c2 < nc ∧ i2 < n then (MIN_FREQ + i2 * df + c2 * dc) % U32 else m c2 i2 := by
  induction nc with
  | zero => simp [fillChans]
  | succ k ih =>
    simp only [fillChans]
    rw [fillRow_apply, ih]
    by_cases h1 : c2 = k ∧ i2 < n
    · rw [if_pos h1, h1.1, if_pos ⟨by omega, h1.2⟩]
    · rw [if_neg h1]
      by_cases h2 : c2 < k ∧ i2 < n
      · rw [if_pos h2, if_pos ⟨by omega, h2.2⟩]
      · rw [if_neg h2, if_neg (by
          intro h3
          rcases h3 with ⟨h3c, h3i⟩
          rcases Nat.lt_succ_iff_lt_or_eq.mp h3c with h | h
          · exact h2 ⟨h, h3i⟩
          · exact h1 ⟨h, h3i⟩)]

theorem sub32_of_le (a b : ℕ) (hba : b ≤ a) (ha : a < U32) : sub32 a b = a - b := by
  unfold sub32
  have h1 : a + U32 - b = U32 + (a - b) := by omega
  rw [h1, Nat.add_mod_left, Nat.mod_eq_of_lt (by omega)]

/-- Every planned frequency stays strictly below half the sample rate. -/
theorem planned_lt_half_rate (wav : AudioParams) (c i : ℕ)
    (hch : c < wav.channels) (hi : i < wav.freqs_per_chan)
    (hnyq : MIN_FREQ < wav.sample_rate / 2) (hrate : wav.sample_rate < U32)
    (hdc : delta_c wav ≠ 0)
    (hdfeq : delta_f wav = (wav.sample_rate / 2 - MIN_FREQ) / wav.freqs_per_chan) :
    MIN_FREQ + i * delta_f wav + c * delta_c wav < wav.sample_rate / 2 := by
  set R := wav.sample_rate / 2 with hR
  set df := delta_f wav with hdf
  set dc := delta_c wav with hdcv
  have h1 : (i + 1) * df ≤ wav.freqs_per_chan * df :=
    mul_le_mul_right' (by omega) df
  have h1a : i * df + df ≤ wav.freqs_per_chan * df := by
    rw [Nat.succ_mul] at h1; exact h1
  have h2 : (c + 2) * dc ≤ (wav.channels + 1) * dc :=
    mul_le_mul_right' (by omega) dc
  have h2a : c * dc + 2 * dc ≤ (wav.channels + 1) * dc := by
    have hgoal : (c + 2) * dc = c * dc + 2 * dc := by ring
    rw [hgoal] at h2; exact h2
  have h3 : (wav.channels + 1) * dc ≤ df := by
    rw [hdcv]
    unfold delta_c
    rw [Nat.mul_comm]
    exact Nat.div_mul_le_self _ _
  have h4 : wav.freqs_per_chan * df ≤ R - MIN_FREQ := by
    rw [hdfeq, Nat.mul_comm]
    exact Nat.div_mul_le_self _ _
  have h5 : 1 ≤ dc := by omega
  have hnyq2 : MIN_FREQ < R := hnyq
  clear h1 h2 hdfeq hdc hnyq hch hi hR hdf hdcv
  unfold MIN_FREQ at hnyq2 h4 ⊢
  generalize hx : i * df = x at h1a ⊢
  generalize hy : c * dc = y at h2a ⊢
  generalize hz : wav.freqs_per_chan * df = z at h1a h4
  generalize hw : (wav.channels + 1) * dc = w at h2a h3
  omega

/-- C1: for valid inputs with sufficient bandwidth (nonzero spacings), the
frequency planner succeeds and fills, for channel c and tone index i, the
frequency MIN_FREQ + i * delta_f + c * delta_c with
delta_f = (sample_rate / 2 - MIN_FREQ) / tones and
delta_c = delta_f / (channels + 1); each channel is strictly ascending with
exactly tones_per_channel pairwise-distinct entries, every entry lies in
the band from MIN_FREQ inclusive to sample_rate / 2 exclusive, and two
distinct channels never carry the same frequency sequence. -/
theorem C1_frequency_planner (m : ℕ → ℕ → ℕ) (wav : AudioParams)
    (hch : 1 ≤ wav.channels) (hn : 1 ≤ wav.freqs_per_chan)
    (hrate : wav.sample_rate < U32) (hnyq : MIN_FREQ < wav.sample_rate / 2)
    (hdf : delta_f wav ≠ 0) (hdc : delta_c wav ≠ 0) :
    (fill_desired_freqs m wav).1 = 0 ∧
    delta_f wav = (wav.sample_rate / 2 - MIN_FREQ) / wav.freqs_per_chan ∧
    delta_c wav = delta_f wav / (wav.channels + 1) ∧
    (∀ c < wav.channels, ∀ i < wav.freqs_per_chan,
      (fill_desired_freqs m wav).2 c i = MIN_FREQ + i * delta_f wav + c * delta_c wav) ∧
    (∀ c < wav.channels, ∀ i, ∀ j, i < j → j < wav.freqs_per_chan →
      (fill_desired_freqs m wav).2 c i < (fill_desired_freqs m wav).2 c j) ∧
    (∀ c < wav.channels,
      ((List.range wav.freqs_per_chan).map ((fill_desired_freqs m wav).2 c)).Nodup) ∧
    (∀ c < wav.channels, ∀ i < wav.freqs_per_chan,
      MIN_FREQ ≤ (fill_desired_freqs m wav).2 c i ∧
      (fill_desired_freqs m wav).2 c i < wav.sample_rate / 2) ∧
    (∀ c1 < wav.channels, ∀ c2 < wav.channels, c1 ≠ c2 →
      (List.range wav.freqs_per_chan).map ((fill_desired_freqs m wav).2 c1) ≠
        (List.range wav.freqs_per_chan).map ((fill_desired_freqs m wav).2 c2)) := by
  have hdfeq : delta_f wav = (wav.sample_rate / 2 - MIN_FREQ) / wav.freqs_per_chan := by
    unfold delta_f
    rw [sub32_of_le _ _ (by omega) (by omega)]
  have hres : fill_desired_freqs m wav =
      (0, fillChans m (delta_f wav) (delta_c wav) wav.freqs_per_chan wav.channels) := by
    unfold fill_desired_freqs
    rw [if_neg (by push_neg; exact ⟨hdf, hdc⟩)]
  have hval : ∀ c < wav.channels, ∀ i < wav.freqs_per_chan,
      (fill_desired_freqs m wav).2 c i =
        MIN_FREQ + i * delta_f wav + c * delta_c wav := by
    intro c hc i hi
    rw [hres]
    simp only
    rw [fillChans_apply, if_pos ⟨hc, hi⟩]
    exact Nat.mod_eq_of_lt (by
      have := planned_lt_half_rate wav c i hc hi hnyq hrate hdc hdfeq
      omega)
  have hasc : ∀ c < wav.channels, ∀ i, ∀ j, i < j → j < wav.freqs_per_chan →
      (fill_desired_freqs m wav).2 c i < (fill_desired_freqs m wav).2 c j := by
    intro c hc i j hij hj
    rw [hval c hc i (by omega), hval c hc j hj]
    have : i * delta_f wav < j * delta_f wav :=
      Nat.mul_lt_mul_of_lt_of_le hij (le_refl _) (by omega)
    omega
  refine ⟨by rw [hres], hdfeq, rfl, hval, hasc, ?_, ?_, ?_⟩
  · intro c hc
    refine (List.nodup_range wav.freqs_per_chan).map_on ?_
    intro x hx y hy hxy
    rcases Nat.lt_trichotomy x y with h | h | h
    · exact absurd hxy (Nat.ne_of_lt (hasc c hc x y h (List.mem_range.mp hy)))
    · exact h
    · exact absurd hxy.symm (Nat.ne_of_lt (hasc c hc y x h (List.mem_range.mp hx)))
  · intro c hc i hi
    rw [hval c hc i hi]
    exact ⟨by omega, planned_lt_half_rate wav c i hc hi hnyq hrate hdc hdfeq⟩
  · intro c1 hc1 c2 hc2 hne heq
    obtain ⟨k, hk⟩ : ∃ k, wav.freqs_per_chan = k + 1 := ⟨wav.freqs_per_chan - 1, by omega⟩
    rw [hk, List.range_succ_eq_map, List.map_cons, List.map_cons] at heq
    have hhead : (fill_desired_freqs m wav).2 c1 0 = (fill_desired_freqs m wav).2 c2 0 :=
      (List.cons.injEq _ _ _ _).mp heq |>.1
    rw [hval c1 hc1 0 (by omega), hval c2 hc2 0 (by omega)] at hhead
    simp only [Nat.zero_mul, Nat.add_zero] at hhead
    have : c1 * delta_c wav = c2 * delta_c wav := by omega
    exact hne (Nat.eq_of_mul_eq_mul_right (by omega) this)

/-- C1 witness: the planner at channels = 2, sample_rate = 48000,
tones_per_channel = 4 satisfies all the hypotheses and hence the stated
conclusions. -/
theorem C1_frequency_planner_witness :
    (fill_desired_freqs (fun _ _ => 0) ⟨2, 48000, 32, 10, 4, 480000⟩).1 = 0 ∧
    delta_f ⟨2, 48000, 32, 10, 4, 480000⟩ = 5950 ∧
    delta_c ⟨2, 48000, 32, 10, 4, 480000⟩ = 1983 := by
  have h := C1_frequency_planner (fun _ _ => 0) ⟨2, 48000, 32, 10, 4, 480000⟩
    (by decide) (by decide) (by decide) (by decide) (by decide) (by decide)
  exact ⟨h.1, by decide, by decide⟩

/-- C5: the frequency planner returns the error code -1 exactly when the
inter-tone spacing delta_f or the inter-channel spacing delta_c
integer-divides to zero, and in that case it leaves the output matrix of
the caller untouched, never producing a degraded plan. -/
theorem C5_planner_error_iff (m : ℕ → ℕ → ℕ) (wav : AudioParams)
    (hn : 1 ≤ wav.freqs_per_chan) :
    ((fill_desired_freqs m wav).1 = -1 ↔ delta_f wav = 0 ∨ delta_c wav = 0) ∧
    ((fill_desired_freqs m wav).1 = -1 → (fill_desired_freqs m wav).2 = m) := by
  rw [fill_desired_freqs.eq_1]
  by_cases h : delta_f wav = 0 ∨ delta_c wav = 0
  · rw [if_pos h]
    exact ⟨by simp [h], fun _ => rfl⟩
  · rw [if_neg h]
    exact ⟨by simpa using h, by intro h2; simp at h2⟩

/-- C5 witness: at sample_rate = 8000 and 4000 tones per channel the
inter-tone spacing divides to zero, the planner reports -1 and the output
matrix is unchanged. -/
theorem C5_planner_error_iff_witness :
    ((fill_desired_freqs (fun _ _ => 0) ⟨1, 8000, 32, 10, 4000, 80000⟩).1 = -1 ↔
      delta_f ⟨1, 8000, 32, 10, 4000, 80000⟩ = 0 ∨
        delta_c ⟨1, 8000, 32, 10, 4000, 80000⟩ = 0) ∧
    ((fill_desired_freqs (fun _ _ => 0) ⟨1, 8000, 32, 10, 4000, 80000⟩).1 = -1 →
      (fill_desired_freqs (fun _ _ => 0) ⟨1, 8000, 32, 10, 4000, 80000⟩).2 =
        (fun _ _ => 0)) :=
  C5_planner_error_iff (fun _ _ => 0) ⟨1, 8000, 32, 10, 4000, 80000⟩ (by decide)

/-! ## Detected-frequency lists (wav-analyzer.c lines 38-76)

The 64-entry per-channel buffer is modelled as a list read with getD,
together with the stored count nfreqs. -/

/-- freqs_are_equal from wav-analyzer.c: f1 <= f2 + accuracy and
f1 >= f2 - accuracy, both sides computed in unsigned 32-bit arithmetic. -/
def freqs_are_equal (f1 f2 accuracy : ℕ) : Bool :=
  decide (f1 ≤ (f2 + accuracy) % U32) && decide ((f2 + U32 - accuracy) % U32 ≤ f1)

/-- freq_is_listed from wav-analyzer.c: scans the first entries of the
buffer, stopping at index nfreqs or at the buffer capacity
MAX_FREQS_PER_CHAN, and reports whether one is within FREQ_ACCURACY of the
given frequency. -/
def freq_is_listed (freqs : List ℕ) (nfreqs frequency : ℕ) : Bool :=
  (List.range (min nfreqs MAX_FREQS_PER_CHAN)).any
    (fun i => freqs_are_equal frequency (freqs.getD i 0) FREQ_ACCURACY)

/-- add_freq_to_list from wav-analyzer.c: drops the addition when
nfreqs + 1 would reach the capacity, deduplicates with freq_is_listed,
otherwise stores at index nfreqs and increments the count. -/
def add_freq_to_list (freqs : List ℕ) (nfreqs frequency : ℕ) : List ℕ × ℕ :=
  if nfreqs + 1 ≥ MAX_FREQS_PER_CHAN then (freqs, nfreqs)
  else if freq_is_listed freqs nfreqs frequency then (freqs, nfreqs)
  else (freqs.set nfreqs frequency, nfreqs + 1)

theorem add_freq_to_list_count_le (freqs : List ℕ) (nfreqs f : ℕ)
    (h : nfreqs ≤ MAX_FREQS_PER_CHAN - 1) :
    (add_freq_to_list freqs nfreqs f).2 ≤ MAX_FREQS_PER_CHAN - 1 := by
  unfold MAX_FREQS_PER_CHAN at h ⊢
  unfold add_freq_to_list MAX_FREQS_PER_CHAN
  split_ifs with h1 h2 <;> simp <;> omega

theorem foldl_add_freq_count_le (adds : List ℕ) (st : List ℕ × ℕ)
    (h : st.2 ≤ MAX_FREQS_PER_CHAN - 1) :
    (adds.foldl (fun st f => add_freq_to_list st.1 st.2 f) st).2 ≤
      MAX_FREQS_PER_CHAN - 1 := by
  induction adds generalizing st with
  | nil => exact h
  | cons a l ih =>
    exact ih (add_freq_to_list st.1 st.2 a) (add_freq_to_list_count_le st.1 st.2 a h)

/-- C10: over every sequence of additions starting from an empty list, the
detected-frequency count never exceeds MAX_FREQS_PER_CHAN - 1 = 63, and an
addition attempted at count 63 leaves the list and the count unchanged, so
the advertised capacity of 64 is never reached. -/
theorem C10_detected_list_capacity :
    (∀ (adds : List ℕ) (buf : List ℕ),
      (adds.foldl (fun st f => add_freq_to_list st.1 st.2 f) (buf, 0)).2 ≤
        MAX_FREQS_PER_CHAN - 1) ∧
    (∀ (freqs : List ℕ) (f : ℕ),
      add_freq_to_list freqs (MAX_FREQS_PER_CHAN - 1) f =
        (freqs, MAX_FREQS_PER_CHAN - 1)) := by
  constructor
  · intro adds buf
    exact foldl_add_freq_count_le adds (buf, 0) (by simp [MAX_FREQS_PER_CHAN])
  · intro freqs f
    unfold add_freq_to_list
    rw [if_pos (by unfold MAX_FREQS_PER_CHAN; omega)]

/-! ## Expected-versus-detected comparison (wav-analyzer.c lines 385-418)

One channel of the comparison pass of main: the expected list efreqs (of
nfreqs_e = freqs_per_chan entries), the detected buffer cfreqs and its
count ncfreqs.  The printed line for expected index i carries the matched
flag and the int diff = cfreqs[c][i] - efreqs[c][i] of the C source. -/

/-- Unsigned 32-bit difference a - b converted to a signed int, as the C
line computing the printed diff does. -/
def c_int_diff (a b : ℕ) : ℤ := toInt32 ((a + U32 - b) % U32)

/-- One printed comparison line of main. -/
structure MatchLine where
  index : ℕ
  expected : ℕ
  matched : Bool
  diff : ℤ
deriving DecidableEq, Inhabited

/-- The comparison loop of main over the expected frequencies of one
channel. -/
def compare_lines (efreqs : List ℕ) (nfreqs_e : ℕ) (cfreqs : List ℕ)
    (ncfreqs : ℕ) : List MatchLine :=
  (List.range nfreqs_e).map (fun i =>
    { index := i
      expected := efreqs.getD i 0
      matched := freq_is_listed cfreqs ncfreqs (efreqs.getD i 0)
      diff := c_int_diff (cfreqs.getD i 0) (efreqs.getD i 0) })

/-- The found counter of main: how many expected frequencies were reported
matched on the channel. -/
def found_count (efreqs : List ℕ) (nfreqs_e : ℕ) (cfreqs : List ℕ)
    (ncfreqs : ℕ) : ℕ :=
  ((compare_lines efreqs nfreqs_e cfreqs ncfreqs).filter (fun l => l.matched)).length

/-- The spurious block of main: only entered when found < ncfreqs, and then
it prints every detected frequency not listed among the expected ones. -/
def spurious_report (efreqs : List ℕ) (nfreqs_e : ℕ) (cfreqs : List ℕ)
    (ncfreqs : ℕ) : List ℕ :=
  if found_count efreqs nfreqs_e cfreqs ncfreqs < ncfreqs then
    ((List.range ncfreqs).map (fun i => cfreqs.getD i 0)).filter
      (fun d => !(freq_is_listed efreqs nfreqs_e d))
  else []

/-- Modelled from the spec wording for FrequencyMatcher: the delta of the
first detected frequency lying within the tolerance of the expected one,
detected minus expected. -/
def spec_first_match_delta (cfreqs : List ℕ) (ncfreqs expected : ℕ) : Option ℤ :=
  (((List.range (min ncfreqs MAX_FREQS_PER_CHAN)).filter
      (fun j => decide (((cfreqs.getD j 0 : ℤ) - (expected : ℤ)).natAbs ≤
        FREQ_ACCURACY))).head?).map
    (fun j => (cfreqs.getD j 0 : ℤ) - (expected : ℤ))

theorem getD_range_map {α : Type} (f : ℕ → α) (n i : ℕ) (d : α) (h : i < n) :
    ((List.range n).map f).getD i d = f i := by
  rw [List.getD_eq_getElem _ _ (by simpa using h)]
  simp

/-- For a stored frequency at least 1 and small enough not to wrap, the
unsigned tolerance test of freqs_are_equal is the absolute difference
being at most the accuracy. -/
theorem freqs_are_equal_iff (e d : ℕ) (hd1 : 1 ≤ d) (hd2 : d + 1 < U32) :
    (freqs_are_equal e d FREQ_ACCURACY = true) ↔
      ((e : ℤ) - (d : ℤ)).natAbs ≤ FREQ_ACCURACY := by
  unfold freqs_are_equal FREQ_ACCURACY U32
  unfold U32 at hd2
  simp only [Bool.and_eq_true, decide_eq_true_eq]
  omega

theorem c_int_diff_eq (a b : ℕ) (ha : a < 2 ^ 31) (hb : b < 2 ^ 31) :
    c_int_diff a b = (a : ℤ) - (b : ℤ) := by
  unfold c_int_diff toInt32 U32
  split_ifs with h <;> omega

/-- The matched flag of freq_is_listed as an existential over the detected
entries, for counts within capacity and nonzero unwrapped entries. -/
theorem freq_is_listed_iff (freqs : List ℕ) (nfreqs frequency : ℕ)
    (hn : nfreqs ≤ MAX_FREQS_PER_CHAN)
    (hpos : ∀ j < nfreqs, 1 ≤ freqs.getD j 0 ∧ freqs.getD j 0 + 1 < U32) :
    (freq_is_listed freqs nfreqs frequency = true ↔
      ∃ j < nfreqs, ((frequency : ℤ) - (freqs.getD j 0 : ℤ)).natAbs ≤ FREQ_ACCURACY) := by
  unfold freq_is_listed
  rw [Nat.min_eq_left hn, List.any_eq_true]
  constructor
  · rintro ⟨j, hj, hfe⟩
    rw [List.mem_range] at hj
    exact ⟨j, hj, (freqs_are_equal_iff _ _ (hpos j hj).1 (hpos j hj).2).mp hfe⟩
  · rintro ⟨j, hj, habs⟩
    exact ⟨j, List.mem_range.mpr hj,
      (freqs_are_equal_iff _ _ (hpos j hj).1 (hpos j hj).2).mpr habs⟩

/-- C2 counterexample: with expected list [300, 400] and detected list
[400, 300], the expected frequency at index 0 is matched, the first
detected frequency within tolerance of it is 300 giving a spec delta of 0,
yet the printed diff is 100, because the code subtracts the detected entry
stored at the same index rather than the matching one. -/
theorem C2_matcher_counterexample :
    ((compare_lines [300, 400] 2 [400, 300] 2).getD 0 default).matched = true ∧
    spec_first_match_delta [400, 300] 2 300 = some 0 ∧
    ((compare_lines [300, 400] 2 [400, 300] 2).getD 0 default).diff = 100 ∧
    (100 : ℤ) ≠ 0 := by decide

/-- C2 amended: the expected frequency at index i is reported matched
exactly when some detected entry lies within FREQ_ACCURACY of it, and the
printed diff equals detected-at-the-same-index-i minus expected (as a
signed 32-bit value), not the delta of the first qualifying match. -/
theorem C2_matcher_amended (efreqs cfreqs : List ℕ) (nfreqs_e ncfreqs i : ℕ)
    (hi : i < nfreqs_e) (hnc : ncfreqs ≤ MAX_FREQS_PER_CHAN)
    (hpos : ∀ j < ncfreqs, 1 ≤ cfreqs.getD j 0 ∧ cfreqs.getD j 0 + 1 < U32) :
    (((compare_lines efreqs nfreqs_e cfreqs ncfreqs).getD i default).matched = true ↔
      ∃ j < ncfreqs,
        ((efreqs.getD i 0 : ℤ) - (cfreqs.getD j 0 : ℤ)).natAbs ≤ FREQ_ACCURACY) ∧
    (efreqs.getD i 0 < 2 ^ 31 → cfreqs.getD i 0 < 2 ^ 31 →
      ((compare_lines efreqs nfreqs_e cfreqs ncfreqs).getD i default).diff =
        (cfreqs.getD i 0 : ℤ) - (efreqs.getD i 0 : ℤ)) := by
  have hline : (compare_lines efreqs nfreqs_e cfreqs ncfreqs).getD i default =
      { index := i
        expected := efreqs.getD i 0
        matched := freq_is_listed cfreqs ncfreqs (efreqs.getD i 0)
        diff := c_int_diff (cfreqs.getD i 0) (efreqs.getD i 0) } := by
    unfold compare_lines
    exact getD_range_map _ _ _ _ hi
  rw [hline]
  constructor
  · exact freq_is_listed_iff cfreqs ncfreqs (efreqs.getD i 0) hnc hpos
  · intro h1 h2
    exact c_int_diff_eq _ _ h2 h1

/-- C2 witness: expected [300], detected [301], index 0: the hypotheses
hold and the amended characterization applies. -/
theorem C2_matcher_amended_witness :
    (((compare_lines [300] 1 [301] 1).getD 0 default).matched = true ↔
      ∃ j < 1, ((([300].getD 0 0 : ℕ) : ℤ) - (([301].getD j 0 : ℕ) : ℤ)).natAbs ≤
        FREQ_ACCURACY) ∧
    ([300].getD 0 0 < 2 ^ 31 → [301].getD 0 0 < 2 ^ 31 →
      (((compare_lines [300] 1 [301] 1).getD 0 default).diff =
        (([301].getD 0 0 : ℕ) : ℤ) - (([300].getD 0 0 : ℕ) : ℤ))) :=
  C2_matcher_amended [300] [301] 1 1 0 (by decide) (by decide) (by decide)

/-- C4 counterexample: expected [300, 301], detected [300, 500].  Both
expected frequencies match the single detected tone 300, so found = 2 is
not below ncfreqs = 2 and the spurious block is skipped, although the
detected frequency 500 is within tolerance of no expected frequency and
should have been reported spurious. -/
theorem C4_spurious_counterexample :
    spurious_report [300, 301] 2 [300, 500] 2 = [] ∧
    [300, 500].getD 1 0 = 500 ∧
    (∀ k < 2,
      ¬((500 : ℤ) - (([300, 301].getD k 0 : ℕ) : ℤ)).natAbs ≤ FREQ_ACCURACY) := by
  decide

/-- C4 amended: the spurious block runs only when the number of matched
expected frequencies is below the detected count; in that case exactly the
detected entries within tolerance of no expected frequency are reported
spurious, and otherwise nothing is reported even when such entries exist. -/
theorem C4_spurious_amended (efreqs cfreqs : List ℕ) (nfreqs_e ncfreqs : ℕ)
    (hne : nfreqs_e ≤ MAX_FREQS_PER_CHAN)
    (hepos : ∀ j < nfreqs_e, 1 ≤ efreqs.getD j 0 ∧ efreqs.getD j 0 + 1 < U32) :
    (found_count efreqs nfreqs_e cfreqs ncfreqs < ncfreqs →
      ∀ d : ℕ, (d ∈ spurious_report efreqs nfreqs_e cfreqs ncfreqs ↔
        (∃ j < ncfreqs, cfreqs.getD j 0 = d) ∧
        ∀ k < nfreqs_e,
          ¬((d : ℤ) - (efreqs.getD k 0 : ℤ)).natAbs ≤ FREQ_ACCURACY)) ∧
    (¬found_count efreqs nfreqs_e cfreqs ncfreqs < ncfreqs →
      spurious_report efreqs nfreqs_e cfreqs ncfreqs = []) := by
  constructor
  · intro hfound d
    unfold spurious_report
    rw [if_pos hfound, List.mem_filter]
    have hmem : d ∈ (List.range ncfreqs).map (fun i => cfreqs.getD i 0) ↔
        ∃ j < ncfreqs, cfreqs.getD j 0 = d := by
      rw [List.mem_map]
      constructor
      · rintro ⟨j, hj, hjd⟩
        exact ⟨j, List.mem_range.mp hj, hjd⟩
      · rintro ⟨j, hj, hjd⟩
        exact ⟨j, List.mem_range.mpr hj, hjd⟩
    rw [hmem]
    have hlist : (!(freq_is_listed efreqs nfreqs_e d)) = true ↔
        ∀ k < nfreqs_e, ¬((d : ℤ) - (efreqs.getD k 0 : ℤ)).natAbs ≤ FREQ_ACCURACY := by
      rw [Bool.not_eq_true', ← Bool.not_eq_true,
        freq_is_listed_iff efreqs nfreqs_e d hne hepos]
      push_neg
      rfl
    rw [hlist]
  · intro hfound
    unfold spurious_report
    rw [if_neg hfound]

/-- C4 witness: expected [300], detected [300, 997]: only one expected
frequency matches, found = 1 is below the detected count 2, and the
characterization of the spurious report applies. -/
theorem C4_spurious_amended_witness :
    (found_count [300] 1 [300, 997] 2 < 2 →
      ∀ d : ℕ, (d ∈ spurious_report [300] 1 [300, 997] 2 ↔
        (∃ j < 2, [300, 997].getD j 0 = d) ∧
        ∀ k < 1,
          ¬((d : ℤ) - (([300].getD k 0 : ℕ) : ℤ)).natAbs ≤ FREQ_ACCURACY)) ∧
    (¬found_count [300] 1 [300, 997] 2 < 2 →
      spurious_report [300] 1 [300, 997] 2 = []) :=
  C4_spurious_amended [300] [300, 997] 1 2 (by decide) (by decide)

/-! ## Sample quantizer (fill_audio_buf, wav-generator.c lines 23-44)

The normalized double waveforms are modelled on rationals; the C cast of a
double to a signed integer type truncates the value toward zero.  The
interleaved PCM buffer is modelled as a function from position to stored
value; the model covers the defined behavior of the cast, samples within
the normalized range. -/

/-- INT16_MAX of the C library. -/
def INT16_MAX : ℕ := 32767

/-- INT32_MAX of the C library. -/
def INT32_MAX : ℕ := 2 ^ 31 - 1

/-- The C conversion of a floating value to a signed integer: truncation
toward zero. -/
def c_trunc (q : ℚ) : ℤ := if 0 ≤ q then ⌊q⌋ else -⌊-q⌋

/-- A single write buf[idx] = v into the interleaved PCM buffer. -/
def store1 (buf : ℕ → ℤ) (idx : ℕ) (v : ℤ) : ℕ → ℤ :=
  fun j => if j = idx then v else buf j

/-- The inner loop of fill_audio_buf at sample s: for each channel c below
the bound, buf[(s * channels) + c] = waves[c][s] * scale. -/
def fillBufSample (buf : ℕ → ℤ) (waves : ℕ → ℕ → ℚ) (scale channels s : ℕ) :
    ℕ → (ℕ → ℤ)
  | 0 => buf
  | c + 1 => store1 (fillBufSample buf waves scale channels s c)
      (s * channels + c) (c_trunc (waves c s * (scale : ℚ)))

/-- The outer loop of fill_audio_buf: the inner loop for each sample index
below the bound. -/
def fillBufAll (buf : ℕ → ℤ) (waves : ℕ → ℕ → ℚ) (scale channels : ℕ) :
    ℕ → (ℕ → ℤ)
  | 0 => buf
  | s + 1 => fillBufSample (fillBufAll buf waves scale channels s)
      waves scale channels s channels

/-- fill_audio_buf from wav-generator.c: scales by INT16_MAX at 16 bits
per sample, by INT32_MAX at 32, and stores nothing at other depths. -/
def fill_audio_buf (buf : ℕ → ℤ) (waves : ℕ → ℕ → ℚ) (wav : AudioParams) :
    ℕ → ℤ :=
  if wav.bits_per_sample = 16 then
    fillBufAll buf waves INT16_MAX wav.channels wav.samples_per_chan
  else if wav.bits_per_sample = 32 then
    fillBufAll buf waves INT32_MAX wav.channels wav.samples_per_chan
  else buf

theorem fillBufSample_at (buf : ℕ → ℤ) (waves : ℕ → ℕ → ℚ)
    (scale channels s k c : ℕ) (hc : c < k) :
    fillBufSample buf waves scale channels s k (s * channels + c) =
      c_trunc (waves c s * (scale : ℚ)) := by
  induction k with
  | zero => omega
  | succ k ih =>
    simp only [fillBufSample, store1]
    by_cases h : c = k
    · rw [if_pos (by rw [h])]
      rw [h]
    · rw [if_neg (by intro h2; exact h (by omega)), ih (by omega)]

theorem fillBufSample_untouched (buf : ℕ → ℤ) (waves : ℕ → ℕ → ℚ)
    (scale channels s k j : ℕ) (hj : j < s * channels) :
    fillBufSample buf waves scale channels s k j = buf j := by
  induction k with
  | zero => rfl
  | succ k ih =>
    simp only [fillBufSample, store1]
    rw [if_neg (by omega), ih]

theorem fillBufAll_at (buf : ℕ → ℤ) (waves : ℕ → ℕ → ℚ)
    (scale channels ns s c : ℕ) (hs : s < ns) (hc : c < channels) :
    fillBufAll buf waves scale channels ns (s * channels + c) =
      c_trunc (waves c s * (scale : ℚ)) := by
  induction ns with
  | zero => omega
  | succ k ih =>
    simp only [fillBufAll]
    by_cases h : s = k
    · rw [h]
      exact fillBufSample_at _ _ _ _ _ _ _ hc
    · have hlt : s * channels + c < k * channels := by
        have h1 : s * channels + c < (s + 1) * channels := by
          rw [Nat.succ_mul]
          omega
        have h2 : (s + 1) * channels ≤ k * channels :=
          mul_le_mul_right' (by omega) channels
        omega
      rw [fillBufSample_untouched _ _ _ _ _ _ _ hlt, ih (by omega)]

/-- C3 counterexample: the normalized sample 3 / 163835 lies in the unit
interval and 3 / 163835 * 32767 = 3 / 5; the nearest integer is 1, but the
16-bit quantizer stores 0, because the C cast truncates toward zero rather
than rounding. -/
theorem C3_quantizer_counterexample :
    fill_audio_buf (fun _ => 0) (fun _ _ => (3 : ℚ) / 163835)
        ⟨1, 48000, 16, 10, 1, 1⟩ (0 * 1 + 0) = 0 ∧
    round (((3 : ℚ) / 163835) * ((INT16_MAX : ℕ) : ℚ)) = 1 ∧
    (0 : ℤ) ≠ 1 := by
  refine ⟨?_, ?_, by decide⟩
  · have h := fillBufAll_at (fun _ => 0) (fun _ _ => (3 : ℚ) / 163835)
      INT16_MAX 1 1 0 0 (by omega) (by omega)
    have hval : c_trunc (((3 : ℚ) / 163835) * ((INT16_MAX : ℕ) : ℚ)) = 0 := by
      have h35 : ((3 : ℚ) / 163835) * ((INT16_MAX : ℕ) : ℚ) = 3 / 5 := by
        norm_num [INT16_MAX]
      rw [c_trunc, h35, if_pos (by norm_num)]
      norm_num
    unfold fill_audio_buf
    norm_num
    rw [h, hval]
  · have h35 : ((3 : ℚ) / 163835) * ((INT16_MAX : ℕ) : ℚ) = 3 / 5 := by
      norm_num [INT16_MAX]
    rw [h35, round_eq]
    norm_num

/-- C3 amended: at depths 16 and 32 the quantizer stores, at interleaved
position sample * channels + channel, the truncation toward zero of
waveform value times full scale (32767 at 16 bits, 2 ^ 31 - 1 at 32), not
the nearest integer. -/
theorem C3_quantizer_amended (buf : ℕ → ℤ) (waves : ℕ → ℕ → ℚ)
    (wav : AudioParams) (s c : ℕ)
    (hbits : wav.bits_per_sample = 16 ∨ wav.bits_per_sample = 32)
    (hs : s < wav.samples_per_chan) (hc : c < wav.channels)
    (hrange : -1 ≤ waves c s ∧ waves c s ≤ 1) :
    fill_audio_buf buf waves wav (s * wav.channels + c) =
      c_trunc (waves c s *
        ((if wav.bits_per_sample = 16 then INT16_MAX else INT32_MAX : ℕ) : ℚ)) := by
  unfold fill_audio_buf
  rcases hbits with h | h
  · rw [if_pos h, h]
    simp only [if_pos rfl]
    exact fillBufAll_at _ _ _ _ _ _ _ hs hc
  · rw [h]
    simp only [if_neg (by omega : (32 : ℕ) ≠ 16)]
    exact fillBufAll_at _ _ _ _ _ _ _ hs hc

/-- C3 witness: a constant zero waveform at 16-bit depth, two channels,
sample 0, channel 0. -/
theorem C3_quantizer_amended_witness :
    fill_audio_buf (fun _ => 0) (fun _ _ => (0 : ℚ)) ⟨2, 48000, 16, 10, 4, 480000⟩
        (0 * 2 + 0) =
      c_trunc ((0 : ℚ) * ((if (16 : ℕ) = 16 then INT16_MAX else INT32_MAX : ℕ) : ℚ)) :=
  C3_quantizer_amended (fun _ => 0) (fun _ _ => (0 : ℚ)) ⟨2, 48000, 16, 10, 4, 480000⟩
    0 0 (Or.inl rfl) (by decide) (by decide) ⟨by norm_num, by norm_num⟩

/-! ## Spectral analyzer (extract_frequencies, wav-analyzer.c lines 96-161)

The double-precision pipeline is modelled on rationals.  The numeric
library primitives are taken as parameters: cosTab idx len stands for
cos(2 pi idx / len) of the Hann window, realFFT for the in-place real
radix-2 transform of the scientific library (returning none on its nonzero
status), and hypotD for the hypot of the C math library.  The caller
buffer wave is copied into a private data buffer before any processing, as
the memcpy of the source does, and is returned unchanged. -/

/-- hann_window from wav-analyzer.c: val * 0.5 * (1 - cos(2 pi idx / len)). -/
def hann_window (cosTab : ℕ → ℕ → ℚ) (val : ℚ) (idx len : ℕ) : ℚ :=
  val * (1 / 2) * (1 - cosTab idx len)

/-- The private copy of the first size samples of the caller wave, Hann
windowed in place. -/
def windowed_copy (cosTab : ℕ → ℕ → ℚ) (wave : List ℚ) (size : ℕ) : List ℚ :=
  (List.range size).map (fun i => hann_window cosTab (wave.getD i 0) i size)

/-- The power spectrum read at bin i: bin 0 and the last bin
(power_len - 1 = size / 2) are the purely real transform entries, interior
bins combine the packed real and imaginary parts with hypot. -/
def power_at (hypotD : ℚ → ℚ → ℚ) (data : List ℚ) (size i : ℕ) : ℚ :=
  if i = 0 then data.getD 0 0
  else if i = size / 2 then data.getD (size / 2) 0
  else hypotD (data.getD i 0) (data.getD (size - i) 0)

/-- The first considered bin, MIN_FREQ * size / sample_rate in unsigned
arithmetic. -/
def bin_lo (size : ℕ) (wav : AudioParams) : ℕ :=
  MIN_FREQ * size % U32 / wav.sample_rate

/-- The bins scanned by both loops: from bin_lo up to power_len - 1
excluded, power_len being size / 2 + 1. -/
def scan_bins (size : ℕ) (wav : AudioParams) : List ℕ :=
  List.range' (bin_lo size wav) (size / 2 + 1 - 1 - bin_lo size wav)

/-- The maximum-power loop of extract_frequencies. -/
def max_power (hypotD : ℚ → ℚ → ℚ) (data : List ℚ) (size : ℕ)
    (wav : AudioParams) : ℚ :=
  (scan_bins size wav).foldl
    (fun maximum i =>
      if power_at hypotD data size i > maximum then power_at hypotD data size i
      else maximum) 0

/-- The peak-reading loop of extract_frequencies: the running state is the
frequency list with its count, the above flag, the local maximum and its
bin index; on each falling edge the frequency sample_rate * idx / size is
added through add_freq_to_list. -/
def peak_scan (hypotD : ℚ → ℚ → ℚ) (data : List ℚ) (size : ℕ)
    (wav : AudioParams) (threshold : ℚ) (freqs : List ℕ) (nfreqs : ℕ) :
    List ℕ × ℕ :=
  ((scan_bins size wav).foldl
    (fun (st : (List ℕ × ℕ) × Bool × ℚ × ℕ) i =>
      if power_at hypotD data size i > threshold then
        if power_at hypotD data size i > st.2.2.1 then
          (st.1, true, power_at hypotD data size i, i)
        else (st.1, true, st.2.2.1, st.2.2.2)
      else if st.2.1 then
        (add_freq_to_list st.1.1 st.1.2 (wav.sample_rate * st.2.2.2 % U32 / size),
          false, 0, st.2.2.2)
      else (st.1, false, 0, st.2.2.2))
    ((freqs, nfreqs), false, 0, 0)).1

/-- extract_frequencies from wav-analyzer.c, returning the updated
frequency list, its count, the caller wave buffer and the running maximum
threshold.  The transform failure path and the below-noise-floor path
return everything unchanged; otherwise the maximum threshold is raised
when exceeded and the peaks are collected. -/
def extract_frequencies (cosTab : ℕ → ℕ → ℚ) (realFFT : List ℚ → Option (List ℚ))
    (hypotD : ℚ → ℚ → ℚ) (freqs : List ℕ) (nfreqs : ℕ) (wave : List ℚ)
    (size : ℕ) (max_thresh : ℚ) (wav : AudioParams) : List ℕ × ℕ × List ℚ × ℚ :=
  match realFFT (windowed_copy cosTab wave size) with
  | none => (freqs, nfreqs, wave, max_thresh)
  | some data =>
    let threshold := max_power hypotD data size wav / 2
    if threshold < POWER_NOISE_LEVEL then (freqs, nfreqs, wave, max_thresh)
    else
      let newthresh := if threshold > max_thresh then threshold else max_thresh
      ((peak_scan hypotD data size wav threshold freqs nfreqs).1,
        (peak_scan hypotD data size wav threshold freqs nfreqs).2,
        wave, newthresh)

/-- C6: when the derived threshold (half the maximum power over the
considered bins) is below POWER_NOISE_LEVEL, extract_frequencies adds no
frequency and leaves the running maximum threshold untouched; the window
simply yields zero peaks. -/
theorem C6_below_noise_floor (cosTab : ℕ → ℕ → ℚ)
    (realFFT : List ℚ → Option (List ℚ)) (hypotD : ℚ → ℚ → ℚ)
    (freqs : List ℕ) (nfreqs : ℕ) (wave : List ℚ) (size : ℕ)
    (max_thresh : ℚ) (wav : AudioParams) (data : List ℚ)
    (hfft : realFFT (windowed_copy cosTab wave size) = some data)
    (hthr : max_power hypotD data size wav / 2 < POWER_NOISE_LEVEL) :
    extract_frequencies cosTab realFFT hypotD freqs nfreqs wave size max_thresh wav =
      (freqs, nfreqs, wave, max_thresh) := by
  unfold extract_frequencies
  rw [hfft]
  simp only [if_pos hthr]

/-- C9: extract_frequencies never writes into the caller wave buffer: the
windowing and the in-place transform act on the private copy, and the only
other outputs are the frequency list, its count and the maximum
threshold. -/
theorem C9_wave_buffer_preserved (cosTab : ℕ → ℕ → ℚ)
    (realFFT : List ℚ → Option (List ℚ)) (hypotD : ℚ → ℚ → ℚ)
    (freqs : List ℕ) (nfreqs : ℕ) (wave : List ℚ) (size : ℕ)
    (max_thresh : ℚ) (wav : AudioParams) :
    (extract_frequencies cosTab realFFT hypotD freqs nfreqs wave size
        max_thresh wav).2.2.1 = wave := by
  unfold extract_frequencies
  cases h : realFFT (windowed_copy cosTab wave size) with
  | none => rfl
  | some data =>
    by_cases hthr : max_power hypotD data size wav / 2 < POWER_NOISE_LEVEL
    · simp only [if_pos hthr]
    · simp only [if_neg hthr]

/-- C6 witness: an all-zero (silent) window of 8 samples, with library
parameters mapping the zero window to a zero spectrum: the derived
threshold is 0, below the noise floor, and the channel state is returned
untouched. -/
theorem C6_below_noise_floor_witness :
    extract_frequencies (fun _ _ => 1) (fun l => some l) (fun _ _ => 0)
        (List.replicate 64 0) 0 (List.replicate 8 0) 8 0
        ⟨1, 48000, 32, 10, 4, 480000⟩ =
      (List.replicate 64 0, 0, List.replicate 8 0, 0) := by
  have hw : windowed_copy (fun _ _ => 1) (List.replicate 8 (0 : ℚ)) 8 =
      List.replicate 8 (0 : ℚ) := by
    simp [windowed_copy, hann_window, List.map_const]
  have hmp : max_power (fun _ _ => 0) (List.replicate 8 (0 : ℚ)) 8
      ⟨1, 48000, 32, 10, 4, 480000⟩ = 0 := by
    simp [max_power, scan_bins, bin_lo, power_at, U32, MIN_FREQ, List.range']
  exact C6_below_noise_floor (fun _ _ => 1) (fun l => some l) (fun _ _ => 0)
    (List.replicate 64 0) 0 (List.replicate 8 0) 8 0 ⟨1, 48000, 32, 10, 4, 480000⟩
    (List.replicate 8 0) (by rw [hw]) (by rw [hmp]; simp [POWER_NOISE_LEVEL])

/-! ## Container header validation
(extract_audio_parameters, wav-analyzer.c lines 191-230, and the decode
gate of main, lines 306-308)

The header fields read by the function: channels and bits_per_sample are
uint16, samples_per_sec and the data chunk size are uint32.  The declared
size is assigned to an int, so it passes through the signed 32-bit
conversion; the later modulo and divisions convert it back to unsigned, so
they act on the declared chunk size itself. -/

